import Mathlib

/-!
Verification of the adaptive item-selection and mastery-tracking core of the
kana-dojo repository: the mastery classifier computed by the Kanji and
Vocabulary card grids, the word/question generators of the two
word-building games, the score update of their answer handlers, and the
adaptive selector / smart-reverse-mode controller those generators call.
Rational numbers stand in for JavaScript numbers; randomness and the
selector module are injected as explicit parameters.
-/

set_option autoImplicit false

namespace KanaDojo

/-! ## Mastery classifier

From `masteredCharacters` in `src/features/Kanji/components/index.tsx`
(lines 138–148) and the identical `masteredWords` in
`src/features/Vocabulary/components/index.tsx` (lines 135–145):

```
const total = stats.correct + stats.incorrect;
const accuracy = total > 0 ? stats.correct / total : 0;
if (total >= 10 && accuracy >= 0.9) { mastered.add(char); }
```
-/

/-- `accuracy = total > 0 ? correct / total : 0`. -/
def accuracy (correct incorrect : ℕ) : ℚ :=
  let total := correct + incorrect
  if 0 < total then (correct : ℚ) / (total : ℚ) else 0

/-- One entry of the mastery loop body: `total >= 10 && accuracy >= 0.9`. -/
def masteredChar (correct incorrect : ℕ) : Bool :=
  decide (10 ≤ correct + incorrect) && decide ((9 : ℚ) / 10 ≤ accuracy correct incorrect)

/-- The mastered set built from a ledger of `(id, (correct, incorrect))`
entries, as `masteredCharacters` builds a `Set` from
`Object.entries(allTimeStats.characterMastery)`. -/
def masteredOf (ledger : List (String × ℕ × ℕ)) : List String :=
  (ledger.filter fun e => masteredChar e.2.1 e.2.2).map (·.1)

/-- `KANJI_PER_SET` / `WORDS_PER_SET` in the card grids. -/
def ITEMS_PER_SET : ℕ := 10

/-- `data.slice(setStart * PER_SET, setEnd * PER_SET)` on the collection's
item-identifier list. -/
def setSlice (data : List String) (setStart setEnd : ℕ) : List String :=
  (data.take (setEnd * ITEMS_PER_SET)).drop (setStart * ITEMS_PER_SET)

/-- `isSetMastered` from the Kanji card grid (lines 154–164) and the
Vocabulary card grid (lines 161–173): every identifier of the set's slice is
in the mastered set. -/
def isSetMastered (ledger : List (String × ℕ × ℕ)) (data : List String)
    (setStart setEnd : ℕ) : Bool :=
  (setSlice data setStart setEnd).all fun id => (masteredOf ledger).contains id

/-! ## Theorems for the mastery claims -/

/-- C1: an item with counters `{correct, incorrect}` is classified mastered
iff `correct + incorrect ≥ 10` and `correct / (correct + incorrect) ≥ 0.90`,
both thresholds inclusive; `{9,1}` is mastered, `{8,1}` and `{89,11}` are
not. -/
theorem mastered_iff_thresholds :
    (∀ correct incorrect : ℕ,
      masteredChar correct incorrect = true ↔
        (10 ≤ correct + incorrect ∧
          (9 : ℚ) / 10 ≤ (correct : ℚ) / ((correct : ℚ) + (incorrect : ℚ)))) ∧
    masteredChar 9 1 = true ∧ masteredChar 8 1 = false ∧
    masteredChar 89 11 = false := by
  refine ⟨fun correct incorrect => ?_, by norm_num [masteredChar, accuracy],
    by norm_num [masteredChar, accuracy], by norm_num [masteredChar, accuracy]⟩
  unfold masteredChar accuracy
  constructor
  · intro h
    simp only [Bool.and_eq_true, decide_eq_true_eq] at h
    obtain ⟨h1, h2⟩ := h
    refine ⟨h1, ?_⟩
    have hpos : 0 < correct + incorrect := by omega
    simp only [hpos, if_pos] at h2
    simpa [Nat.cast_add] using h2
  · intro ⟨h1, h2⟩
    have hpos : 0 < correct + incorrect := by omega
    simp only [Bool.and_eq_true, decide_eq_true_eq]
    refine ⟨h1, ?_⟩
    simp only [hpos, if_pos]
    simpa [Nat.cast_add] using h2

/-- C2: a quiz set is classified fully mastered iff every identifier in the
set's item list has a ledger entry whose counters meet the mastery
thresholds. -/
theorem setMastered_iff_all_mastered (ledger : List (String × ℕ × ℕ))
    (data : List String) (setStart setEnd : ℕ) :
    isSetMastered ledger data setStart setEnd = true ↔
      ∀ id ∈ setSlice data setStart setEnd,
        ∃ ci : ℕ × ℕ, (id, ci) ∈ ledger ∧ masteredChar ci.1 ci.2 = true := by
  unfold isSetMastered
  rw [List.all_eq_true]
  have hc : ∀ (l : List String) (a : String), (l.contains a = true) ↔ a ∈ l :=
    fun l a => List.elem_iff
  constructor
  · intro h id hid
    have hm := (hc _ _).mp (h id hid)
    rw [masteredOf, List.mem_map] at hm
    obtain ⟨⟨a, ci⟩, he, rfl⟩ := hm
    rw [List.mem_filter] at he
    exact ⟨ci, he.1, he.2⟩
  · intro h id hid
    refine (hc _ _).mpr ?_
    obtain ⟨ci, hmem, hmast⟩ := h id hid
    rw [masteredOf, List.mem_map]
    exact ⟨(id, ci), List.mem_filter.mpr ⟨hmem, hmast⟩, rfl⟩

/-- C3: with zero attempts the accuracy computation takes the guarded
branch: accuracy is 0 (no division by zero) and the item is not mastered. -/
theorem zero_attempts_never_mastered (correct incorrect : ℕ)
    (h : correct + incorrect = 0) :
    accuracy correct incorrect = 0 ∧ masteredChar correct incorrect = false := by
  unfold masteredChar accuracy
  simp [h]

/-- C3 witness: the zero-counter item has accuracy 0 and is not mastered. -/
theorem zero_attempts_never_mastered_witness :
    accuracy 0 0 = 0 ∧ masteredChar 0 0 = false :=
  zero_attempts_never_mastered 0 0 (by decide)

/-! ## Adaptive selector

Modelled from the spec: the module `@/shared/lib/adaptiveSelection`
(`selectWeightedCharacter`, `markCharacterSeen`, `updateCharacterWeight`) is
not among the provided source files; only its call sites are.  Spec §4.1
gives the contract: an empty candidate pool fails with an `InvalidArgument`
condition; otherwise one candidate is picked with probability proportional
to its weight (spec §9 suggests cumulative-weight search with an injected
random source, which is how the draw is modelled here: `r` is the injected
random number in `[0, 1)`).
-/

/-- The selector's only error condition (spec §7). -/
inductive SelError where
  | invalidArgument
deriving DecidableEq

/-- Modelled from the spec: cumulative-weight search — walk the candidates
accumulating weights until the running total passes the target. -/
def pickByCumulative (w : String → ℚ) : ℚ → String → List String → String
  | _, c, [] => c
  | t, c, d :: ds => if t < w c then c else pickByCumulative w (t - w c) d ds

/-- Modelled from the spec: `selectWeightedCharacter(candidates)` — fails
with `InvalidArgument` on an empty pool, otherwise returns the candidate
found by cumulative-weight search at target `r * Σ weight(candidates)`. -/
def selectWeightedCharacter (w : String → ℚ) (r : ℚ)
    (candidates : List String) : Except SelError String :=
  match candidates with
  | [] => .error .invalidArgument
  | c :: cs => .ok (pickByCumulative w (r * ((c :: cs).map w).sum) c cs)

/-- Modelled from the spec: weight clamp bounds and boost/decay factors are
tunable constants with `0 < W_min ≤ W_max`, a multiplicative boost `> 1`
and a decay factor `< 1` (spec §4.1, §6); representative values. -/
def Wmin : ℚ := 1 / 2

/-- Modelled from the spec: upper clamp bound of the selection weight. -/
def Wmax : ℚ := 8

/-- Modelled from the spec: multiplicative boost applied on a wrong answer. -/
def weightBoost : ℚ := 3 / 2

/-- Modelled from the spec: decay factor applied on a correct answer. -/
def weightDecay : ℚ := 4 / 5

/-- Modelled from the spec: `updateCharacterWeight(id, wasCorrect)` — on a
correct outcome decay the weight, bounded below at `W_min`; on an incorrect
outcome boost it, bounded above at `W_max` (spec §4.1). -/
def updateCharacterWeight (weight : ℚ) (wasCorrect : Bool) : ℚ :=
  if wasCorrect then max Wmin (weight * weightDecay)
  else min Wmax (weight * weightBoost)

/-! ## Smart reverse mode

Modelled from the spec: the hook `useSmartReverseMode` is not among the
provided source files; spec §4.3 gives its state machine.  The dispatch
around it (`externalIsReverse ?? internalIsReverse`, and the guarded calls
to `decideNextMode` / `recordWrongAnswer`) is embedded from `handleCheck`
in the two word-building games.
-/

/-- DirectionController state (spec §3 StreakState): current direction and
the count of consecutive correct answers in that direction. -/
structure StreakState where
  isReverse : Bool
  streak : ℕ
deriving DecidableEq

/-- Modelled from the spec: the configured flip threshold (spec §8 uses 3). -/
def FLIP_STREAK : ℕ := 3

/-- Modelled from the spec: `decideNextMode` — on a correct answer increment
the streak; when it reaches `FLIP_STREAK`, flip the direction and reset the
streak to 0 (spec §4.3). -/
def decideNextMode (s : StreakState) : StreakState :=
  if FLIP_STREAK ≤ s.streak + 1 then ⟨!s.isReverse, 0⟩
  else ⟨s.isReverse, s.streak + 1⟩

/-- Modelled from the spec: `recordWrongAnswer` — reset the streak without
flipping the direction (spec §4.3). -/
def recordWrongAnswer (s : StreakState) : StreakState :=
  ⟨s.isReverse, 0⟩

/-- From the word-building games:
`const isReverse = externalIsReverse ?? internalIsReverse` — the externally
supplied direction, when present, is the one used. -/
def effectiveIsReverse (externalIsReverse : Option Bool)
    (internalIsReverse : Bool) : Bool :=
  externalIsReverse.getD internalIsReverse

/-- From `handleCheck` in `src/unnamed/part_000` (lines 506–531) and
`src/features/Kanji/components/Game/WordBuildingGame.tsx` (lines 432–455):
the smart-reverse transition for the answer outcome runs only when
`externalIsReverse === undefined`; otherwise the controller state is left
untouched. -/
def handleCheckReverse (externalIsReverse : Option Bool) (isCorrect : Bool)
    (s : StreakState) : StreakState :=
  if externalIsReverse = none then
    if isCorrect then decideNextMode s else recordWrongAnswer s
  else s

/-! ## Session score update

From `handleCheck` in both word-building games: on a correct answer the
score is increased by the number of characters answered (one in the kanji
game); on a wrong answer `if (score - 1 >= 0) { setScore(score - 1); }`.
-/

/-- The score transition of `handleCheck` (kana game lines 502 and 522–524;
kanji game lines 415 and 446–448, with `gain = 1`). -/
def updateScore (score : ℤ) (isCorrect : Bool) (gain : ℕ) : ℤ :=
  if isCorrect then score + gain
  else if 0 ≤ score - 1 then score - 1 else score

/-! ## Theorems for the selector, controller and score claims -/

/-- The cumulative-weight walk always lands on one of the candidates. -/
theorem pickByCumulative_mem (w : String → ℚ) :
    ∀ (ds : List String) (t : ℚ) (c : String),
      pickByCumulative w t c ds ∈ c :: ds := by
  intro ds
  induction ds with
  | nil => intro t c; simp [pickByCumulative]
  | cons d ds ih =>
    intro t c
    rw [pickByCumulative]
    by_cases h : t < w c
    · simp [h]
    · simp only [h, if_false]
      exact List.mem_cons_of_mem _ (ih (t - w c) d)

/-- On a non-empty pool the selector succeeds. -/
theorem selectWeighted_ok (w : String → ℚ) (r : ℚ) (candidates : List String)
    (h : candidates ≠ []) :
    ∃ s, selectWeightedCharacter w r candidates = .ok s ∧ s ∈ candidates := by
  match candidates with
  | [] => exact absurd rfl h
  | c :: cs =>
    exact ⟨_, rfl, pickByCumulative_mem w cs _ c⟩

/-- C6: for every non-empty candidate pool, `selectWeightedCharacter`
returns (successfully) an identifier that is a member of that pool. -/
theorem selectWeighted_mem_of_ne_nil (w : String → ℚ) (r : ℚ)
    (candidates : List String) (h : candidates ≠ []) :
    ∃ s, selectWeightedCharacter w r candidates = .ok s ∧ s ∈ candidates :=
  selectWeighted_ok w r candidates h

/-- C6 witness: on the pool `["a", "b"]` with uniform weights and `r = 1/2`
the selector returns a member of the pool. -/
theorem selectWeighted_mem_of_ne_nil_witness :
    ∃ s, selectWeightedCharacter (fun _ => 1) (1 / 2) ["a", "b"] = .ok s ∧
      s ∈ ["a", "b"] :=
  selectWeighted_mem_of_ne_nil (fun _ => 1) (1 / 2) ["a", "b"] (by simp)

/-- C7: from any weight within the clamp bounds, a wrong answer strictly
increases the weight unless it is already at `W_max` (where it holds), a
correct answer strictly decreases it unless it is already at `W_min`
(where it holds), and both updates stay within `[W_min, W_max]`. -/
theorem updateWeight_monotone (weight : ℚ)
    (hlo : Wmin ≤ weight) (hhi : weight ≤ Wmax) :
    (weight < updateCharacterWeight weight false ∨
      (weight = Wmax ∧ updateCharacterWeight weight false = Wmax)) ∧
    (updateCharacterWeight weight true < weight ∨
      (weight = Wmin ∧ updateCharacterWeight weight true = Wmin)) ∧
    Wmin ≤ updateCharacterWeight weight false ∧
    updateCharacterWeight weight false ≤ Wmax ∧
    Wmin ≤ updateCharacterWeight weight true ∧
    updateCharacterWeight weight true ≤ Wmax := by
  have hWmin : Wmin = 1 / 2 := rfl
  have hWmax : Wmax = 8 := rfl
  unfold updateCharacterWeight weightBoost weightDecay
  rw [hWmin] at hlo ⊢
  rw [hWmax] at hhi ⊢
  simp only [if_true, if_false, Bool.false_eq_true, min_def, max_def]
  refine ⟨?_, ?_, ?_, ?_, ?_, ?_⟩
  · rcases lt_or_eq_of_le hhi with h | h
    · left
      split <;> linarith
    · right
      subst h
      refine ⟨rfl, ?_⟩
      split <;> norm_num at *
  · rcases lt_or_eq_of_le hlo with h | h
    · left
      split <;> linarith
    · right
      rw [← h]
      refine ⟨rfl, ?_⟩
      split <;> norm_num at *
  · split <;> linarith
  · split <;> linarith
  · split <;> linarith
  · split <;> linarith

/-- C7 witness: from the neutral weight 1, a wrong answer strictly
increases the weight, a correct answer strictly decreases it, and both
results stay within the clamp bounds. -/
theorem updateWeight_monotone_witness :
    (1 < updateCharacterWeight 1 false ∨
      ((1 : ℚ) = Wmax ∧ updateCharacterWeight 1 false = Wmax)) ∧
    (updateCharacterWeight 1 true < 1 ∨
      ((1 : ℚ) = Wmin ∧ updateCharacterWeight 1 true = Wmin)) ∧
    Wmin ≤ updateCharacterWeight 1 false ∧
    updateCharacterWeight 1 false ≤ Wmax ∧
    Wmin ≤ updateCharacterWeight 1 true ∧
    updateCharacterWeight 1 true ≤ Wmax :=
  updateWeight_monotone 1 (by norm_num [Wmin]) (by norm_num [Wmax])

/-- C8: when the caller supplies a fixed direction, the game uses exactly
that direction and the check handler leaves the controller state unchanged
for both outcomes; the controller transitions (`decideNextMode` on correct,
`recordWrongAnswer` on wrong) run exactly when no external direction is
supplied. -/
theorem external_direction_frame (b internalIsReverse isCorrect : Bool)
    (s : StreakState) :
    effectiveIsReverse (some b) internalIsReverse = b ∧
    handleCheckReverse (some b) isCorrect s = s ∧
    handleCheckReverse none isCorrect s =
      (if isCorrect then decideNextMode s else recordWrongAnswer s) := by
  refine ⟨rfl, ?_, ?_⟩
  · simp [handleCheckReverse]
  · simp [handleCheckReverse]

/-- C10: from a non-negative score, every answer outcome (correct with any
gain, or wrong) keeps the score non-negative. -/
theorem score_nonneg_invariant (score : ℤ) (isCorrect : Bool) (gain : ℕ)
    (h : 0 ≤ score) : 0 ≤ updateScore score isCorrect gain := by
  unfold updateScore
  split
  · positivity
  · split <;> omega

/-- C10 witness: a wrong answer at score 0 leaves the score non-negative. -/
theorem score_nonneg_invariant_witness : 0 ≤ updateScore 0 false 1 :=
  score_nonneg_invariant 0 false 1 (by decide)

/-! ## Word and question generators

`generateWord` is embedded from `src/unnamed/part_000` (lines 367–408), the
kana word-building game; `generateQuestion` from
`src/features/Kanji/components/Game/WordBuildingGame.tsx` (lines 285–330).
The selector is an injected parameter `sel` (indexed by the remaining loop
fuel, standing for the per-draw random state); `rnd` injects
`random.integer(0, available.length - 1)` and `shuffle` the
sort-by-random-comparator shuffles.  `markCharacterSeen` only records
recency and is not modelled.
-/

/-- The result record of `generateWord` (`wordChars`, `answerChars`,
`allTiles`), with the `distractors` local kept as a field so its properties
can be stated. -/
structure WordData where
  wordChars : List String
  answerChars : List String
  distractors : List String
  allTiles : List String
deriving DecidableEq

/-- The word draw loop (lines 376–384): filter out already-used characters,
break when no candidate remains, otherwise draw one adaptively and record
it. `acc` holds the drawn characters in reverse order and doubles as the
`usedChars` set, exactly as the source pushes every selected character to
both `wordChars` and `usedChars`. -/
def drawChars (sel : ℕ → List String → Except SelError String)
    (sourceChars : List String) :
    ℕ → List String → Except SelError (List String)
  | 0, acc => .ok acc.reverse
  | n + 1, acc =>
    match sourceChars.filter fun c => !acc.contains c with
    | [] => .ok acc.reverse
    | a :: rest =>
      match sel n (a :: rest) with
      | .error e => .error e
      | .ok selected => drawChars sel sourceChars n (selected :: acc)

/-- The distractor loop (lines 395–402): filter out answer characters and
already-chosen distractors, break when nothing remains, otherwise pick a
uniformly random candidate. -/
def drawDistractors (rnd : ℕ → ℕ) (distractorSource usedAnswers : List String) :
    ℕ → List String → List String
  | 0, acc => acc.reverse
  | n + 1, acc =>
    match distractorSource.filter fun c =>
        !usedAnswers.contains c && !acc.contains c with
    | [] => acc.reverse
    | a :: rest =>
      drawDistractors rnd distractorSource usedAnswers n
        ((a :: rest).get ⟨rnd n % (rest.length + 1),
          Nat.mod_lt _ (Nat.succ_pos _)⟩ :: acc)

/-- `generateWord`: degenerate empty result when the pool is smaller than
the word length; otherwise draw `wordLength` characters, map them to the
answer side, draw `min(3, sourceChars.length - wordLength)` distractors and
shuffle the tiles. -/
def generateWord (sel : ℕ → List String → Except SelError String)
    (rnd : ℕ → ℕ) (shuffle : List String → List String)
    (toAnswer : String → String) (sourceChars distractorSource : List String)
    (wordLength : ℕ) : Except SelError WordData :=
  if sourceChars.length < wordLength then .ok ⟨[], [], [], []⟩
  else
    match drawChars sel sourceChars wordLength [] with
    | .error e => .error e
    | .ok wordChars =>
      let answerChars := wordChars.map toAnswer
      let distractorCount := min 3 (sourceChars.length - wordLength)
      let distractors :=
        drawDistractors rnd distractorSource answerChars distractorCount []
      .ok ⟨wordChars, answerChars, distractors,
        shuffle (answerChars ++ distractors)⟩

/-- The result record of `generateQuestion`. -/
structure QuestionData where
  kanjiChar : String
  correctAnswer : String
  allTiles : List String
deriving DecidableEq

/-- `generateQuestion` (kanji game): empty question when the pool is empty;
otherwise one adaptively selected kanji, its meaning (direction-dependent),
and up to `distractorCount` distractors taken from the shuffled remaining
pool. -/
def generateQuestion (sel : List String → Except SelError String)
    (shuffle : List String → List String) (meaning : String → String)
    (isReverse : Bool) (distractorCount : ℕ) :
    List String → Except SelError QuestionData
  | [] => .ok ⟨"", "", []⟩
  | c :: cs =>
    match sel (c :: cs) with
    | .error e => .error e
    | .ok selected =>
      let correctAnswer := if isReverse then selected else meaning selected
      let others := (c :: cs).filter fun k => k != selected
      let distractorSource := if isReverse then others else others.map meaning
      let distractors := (shuffle distractorSource).take distractorCount
      .ok ⟨selected, correctAnswer, shuffle (correctAnswer :: distractors)⟩

/-! ### Loop lemmas -/

/-- `List.contains` agrees with membership on strings. -/
theorem contains_iff (l : List String) (a : String) :
    l.contains a = true ↔ a ∈ l :=
  List.elem_iff

/-- Unfolding the draw loop when the filtered pool is empty. -/
theorem drawChars_succ_nil (sel : ℕ → List String → Except SelError String)
    (src : List String) (n : ℕ) (acc : List String)
    (h : (src.filter fun c => !acc.contains c) = []) :
    drawChars sel src (n + 1) acc = .ok acc.reverse := by
  rw [drawChars, h]

/-- Unfolding the draw loop when the filtered pool is non-empty. -/
theorem drawChars_succ_cons (sel : ℕ → List String → Except SelError String)
    (src : List String) (n : ℕ) (acc : List String) (a : String)
    (rest : List String)
    (h : (src.filter fun c => !acc.contains c) = a :: rest) :
    drawChars sel src (n + 1) acc =
      match sel n (a :: rest) with
      | .error e => .error e
      | .ok selected => drawChars sel src n (selected :: acc) := by
  rw [drawChars, h]

/-- Unfolding the distractor loop when the filtered pool is empty. -/
theorem drawDistractors_succ_nil (rnd : ℕ → ℕ) (ds used : List String)
    (n : ℕ) (acc : List String)
    (h : (ds.filter fun c => !used.contains c && !acc.contains c) = []) :
    drawDistractors rnd ds used (n + 1) acc = acc.reverse := by
  rw [drawDistractors, h]

/-- Unfolding the distractor loop when the filtered pool is non-empty. -/
theorem drawDistractors_succ_cons (rnd : ℕ → ℕ) (ds used : List String)
    (n : ℕ) (acc : List String) (a : String) (rest : List String)
    (h : (ds.filter fun c => !used.contains c && !acc.contains c) = a :: rest) :
    drawDistractors rnd ds used (n + 1) acc =
      drawDistractors rnd ds used n
        ((a :: rest).get ⟨rnd n % (rest.length + 1),
          Nat.mod_lt _ (Nat.succ_pos _)⟩ :: acc) := by
  rw [drawDistractors, h]

/-- The draw loop never fails when the selector succeeds on every non-empty
pool: the loop only ever calls the selector on a pool it has just checked
to be non-empty. -/
theorem drawChars_ok (sel : ℕ → List String → Except SelError String)
    (sourceChars : List String)
    (hsel : ∀ n l, l ≠ [] → ∃ s, sel n l = .ok s) :
    ∀ (fuel : ℕ) (acc : List String),
      ∃ ws, drawChars sel sourceChars fuel acc = .ok ws := by
  intro fuel
  induction fuel with
  | zero => intro acc; exact ⟨acc.reverse, rfl⟩
  | succ n ih =>
    intro acc
    cases hfil : sourceChars.filter fun c => !acc.contains c with
    | nil => exact ⟨acc.reverse, drawChars_succ_nil sel sourceChars n acc hfil⟩
    | cons a rest =>
      obtain ⟨s, hs⟩ := hsel n (a :: rest) (by simp)
      rw [drawChars_succ_cons sel sourceChars n acc a rest hfil, hs]
      exact ih (s :: acc)

/-- Whatever the draw loop returns is duplicate-free, provided the selector
returns a member of the pool it is given: each draw is taken from the
candidates filtered against the already-drawn characters. -/
theorem drawChars_nodup (sel : ℕ → List String → Except SelError String)
    (sourceChars : List String)
    (hsel : ∀ n l s, sel n l = .ok s → s ∈ l) :
    ∀ (fuel : ℕ) (acc ws : List String), acc.Nodup →
      drawChars sel sourceChars fuel acc = .ok ws → ws.Nodup := by
  intro fuel
  induction fuel with
  | zero =>
    intro acc ws hacc h
    cases h
    exact List.nodup_reverse.mpr hacc
  | succ n ih =>
    intro acc ws hacc h
    cases hfil : sourceChars.filter fun c => !acc.contains c with
    | nil =>
      rw [drawChars_succ_nil sel sourceChars n acc hfil] at h
      cases h
      exact List.nodup_reverse.mpr hacc
    | cons a rest =>
      rw [drawChars_succ_cons sel sourceChars n acc a rest hfil] at h
      cases hs : sel n (a :: rest) with
      | error e =>
        rw [hs] at h
        exact absurd h (by simp)
      | ok s =>
        rw [hs] at h
        have hmem : s ∈ a :: rest := hsel n (a :: rest) s hs
        have hnotacc : s ∉ acc := by
          rw [← hfil] at hmem
          have hf := List.mem_filter.mp hmem
          have h2 := hf.2
          simp only [Bool.not_eq_true'] at h2
          intro hmemacc
          rw [(contains_iff acc s).mpr hmemacc] at h2
          exact Bool.noConfusion h2
        exact ih (s :: acc) ws (List.nodup_cons.mpr ⟨hnotacc, hacc⟩) h

/-- The distractor loop produces at most `fuel` new elements. -/
theorem drawDistractors_length (rnd : ℕ → ℕ)
    (distractorSource usedAnswers : List String) :
    ∀ (fuel : ℕ) (acc : List String),
      (drawDistractors rnd distractorSource usedAnswers fuel acc).length ≤
        fuel + acc.length := by
  intro fuel
  induction fuel with
  | zero => intro acc; simp [drawDistractors]
  | succ n ih =>
    intro acc
    cases hfil : distractorSource.filter fun c =>
        !usedAnswers.contains c && !acc.contains c with
    | nil =>
      rw [drawDistractors_succ_nil rnd distractorSource usedAnswers n acc hfil]
      simp only [List.length_reverse]
      omega
    | cons a rest =>
      rw [drawDistractors_succ_cons rnd distractorSource usedAnswers n acc
        a rest hfil]
      have := ih ((a :: rest).get ⟨rnd n % (rest.length + 1),
        Nat.mod_lt _ (Nat.succ_pos _)⟩ :: acc)
      simp only [List.length_cons] at this
      omega

/-- The element the distractor loop picks is in the filtered pool. -/
theorem pick_mem_filter (rnd : ℕ → ℕ) (ds used : List String) (n : ℕ)
    (acc : List String) (a : String) (rest : List String)
    (h : (ds.filter fun c => !used.contains c && !acc.contains c) = a :: rest) :
    (a :: rest).get ⟨rnd n % (rest.length + 1),
        Nat.mod_lt _ (Nat.succ_pos _)⟩ ∈ ds ∧
      (a :: rest).get ⟨rnd n % (rest.length + 1),
        Nat.mod_lt _ (Nat.succ_pos _)⟩ ∉ used ∧
      (a :: rest).get ⟨rnd n % (rest.length + 1),
        Nat.mod_lt _ (Nat.succ_pos _)⟩ ∉ acc := by
  set x := (a :: rest).get ⟨rnd n % (rest.length + 1),
    Nat.mod_lt _ (Nat.succ_pos _)⟩ with hx
  have hmem : x ∈ a :: rest := by rw [hx]; exact List.get_mem _ _ _
  rw [← h] at hmem
  have hf := List.mem_filter.mp hmem
  have h2 := hf.2
  simp only [Bool.and_eq_true, Bool.not_eq_true'] at h2
  refine ⟨hf.1, ?_, ?_⟩
  · intro hmemu
    rw [(contains_iff used x).mpr hmemu] at h2
    exact Bool.noConfusion h2.1
  · intro hmemacc
    rw [(contains_iff acc x).mpr hmemacc] at h2
    exact Bool.noConfusion h2.2

/-- The distractor loop never picks a duplicate: candidates are filtered
against the accumulator. -/
theorem drawDistractors_nodup (rnd : ℕ → ℕ)
    (distractorSource usedAnswers : List String) :
    ∀ (fuel : ℕ) (acc : List String), acc.Nodup →
      (drawDistractors rnd distractorSource usedAnswers fuel acc).Nodup := by
  intro fuel
  induction fuel with
  | zero => intro acc hacc; exact List.nodup_reverse.mpr hacc
  | succ n ih =>
    intro acc hacc
    cases hfil : distractorSource.filter fun c =>
        !usedAnswers.contains c && !acc.contains c with
    | nil =>
      rw [drawDistractors_succ_nil rnd distractorSource usedAnswers n acc hfil]
      exact List.nodup_reverse.mpr hacc
    | cons a rest =>
      rw [drawDistractors_succ_cons rnd distractorSource usedAnswers n acc
        a rest hfil]
      have hp := pick_mem_filter rnd distractorSource usedAnswers n acc
        a rest hfil
      exact ih _ (List.nodup_cons.mpr ⟨hp.2.2, hacc⟩)

/-- Every distractor the loop picks avoids the used answers. -/
theorem drawDistractors_disjoint (rnd : ℕ → ℕ)
    (distractorSource usedAnswers : List String) :
    ∀ (fuel : ℕ) (acc : List String), (∀ x ∈ acc, x ∉ usedAnswers) →
      ∀ d ∈ drawDistractors rnd distractorSource usedAnswers fuel acc,
        d ∉ usedAnswers := by
  intro fuel
  induction fuel with
  | zero =>
    intro acc hacc d hd
    exact hacc d (List.mem_reverse.mp hd)
  | succ n ih =>
    intro acc hacc d hd
    cases hfil : distractorSource.filter fun c =>
        !usedAnswers.contains c && !acc.contains c with
    | nil =>
      rw [drawDistractors_succ_nil rnd distractorSource usedAnswers
        n acc hfil] at hd
      exact hacc d (List.mem_reverse.mp hd)
    | cons a rest =>
      rw [drawDistractors_succ_cons rnd distractorSource usedAnswers n acc
        a rest hfil] at hd
      have hp := pick_mem_filter rnd distractorSource usedAnswers n acc
        a rest hfil
      refine ih _ ?_ d hd
      intro y hy
      rcases List.mem_cons.mp hy with hyy | hyy
      · rw [hyy]; exact hp.2.1
      · exact hacc y hyy

/-! ### Theorems for the generator claims -/

/-- A concrete selector instance used by the witnesses: it fails on the
empty pool and otherwise returns the head. -/
def demoSel (l : List String) : Except SelError String :=
  match l with
  | [] => .error .invalidArgument
  | a :: _ => .ok a

/-- `demoSel` succeeds on every non-empty pool. -/
theorem demoSel_ok (l : List String) (h : l ≠ []) : ∃ s, demoSel l = .ok s := by
  cases l with
  | nil => exact absurd rfl h
  | cons a rest => exact ⟨a, rfl⟩

/-- `demoSel` returns a member of the pool it is given. -/
theorem demoSel_mem (l : List String) (s : String) (h : demoSel l = .ok s) :
    s ∈ l := by
  cases l with
  | nil => exact absurd h (by simp [demoSel])
  | cons a rest =>
    simp only [demoSel, Except.ok.injEq] at h
    rw [← h]
    exact List.mem_cons_self a rest

/-- C4: both generators guard the pool before calling the selector, so with
any selector that succeeds on every non-empty pool (i.e. only the empty
pool triggers the `InvalidArgument` branch), neither `generateWord` nor
`generateQuestion` can fail — the empty-candidates failure branch is never
reached. -/
theorem generators_never_fail
    (sel : ℕ → List String → Except SelError String)
    (selq : List String → Except SelError String)
    (hsel : ∀ n l, l ≠ [] → ∃ s, sel n l = .ok s)
    (hselq : ∀ l, l ≠ [] → ∃ s, selq l = .ok s)
    (rnd : ℕ → ℕ) (shuffle : List String → List String)
    (toAnswer meaning : String → String) (isReverse : Bool)
    (sourceChars distractorSource kanjiChars : List String)
    (wordLength distractorCount : ℕ) :
    (∃ wd, generateWord sel rnd shuffle toAnswer sourceChars
        distractorSource wordLength = .ok wd) ∧
    (∃ q, generateQuestion selq shuffle meaning isReverse
        distractorCount kanjiChars = .ok q) := by
  constructor
  · unfold generateWord
    split
    · exact ⟨_, rfl⟩
    · obtain ⟨ws, hws⟩ := drawChars_ok sel sourceChars hsel wordLength []
      rw [hws]
      exact ⟨_, rfl⟩
  · cases kanjiChars with
    | nil => exact ⟨⟨"", "", []⟩, rfl⟩
    | cons c cs =>
      obtain ⟨s, hs⟩ := hselq (c :: cs) (by simp)
      rw [generateQuestion, hs]
      exact ⟨_, rfl⟩

/-- C4 witness: with the head selector, both generators produce a result on
concrete pools. -/
theorem generators_never_fail_witness :
    (∃ wd, generateWord (fun _ => demoSel) (fun _ => 0) id id
        ["a", "b", "c"] ["x", "y"] 2 = .ok wd) ∧
    (∃ q, generateQuestion demoSel id id false 3 ["k", "m"] = .ok q) :=
  generators_never_fail (fun _ => demoSel) demoSel
    (fun _ l hl => demoSel_ok l hl) (fun l hl => demoSel_ok l hl)
    (fun _ => 0) id id id false ["a", "b", "c"] ["x", "y"] ["k", "m"] 2 3

/-- C5: whenever the selector returns a member of the list it is given, the
`wordChars` array produced by `generateWord` is pairwise distinct: each
drawn character enters the used set and is filtered out of the candidates
of every later draw of the same batch. -/
theorem generateWord_wordChars_nodup
    (sel : ℕ → List String → Except SelError String)
    (hsel : ∀ n l s, sel n l = .ok s → s ∈ l)
    (rnd : ℕ → ℕ) (shuffle : List String → List String)
    (toAnswer : String → String) (sourceChars distractorSource : List String)
    (wordLength : ℕ) (wd : WordData)
    (h : generateWord sel rnd shuffle toAnswer sourceChars distractorSource
        wordLength = .ok wd) :
    wd.wordChars.Nodup := by
  unfold generateWord at h
  split at h
  · cases h
    exact List.nodup_nil
  · cases hws : drawChars sel sourceChars wordLength [] with
    | error e =>
      rw [hws] at h
      exact absurd h (by simp)
    | ok ws =>
      rw [hws] at h
      cases h
      exact drawChars_nodup sel sourceChars hsel wordLength [] ws
        List.nodup_nil hws

/-- C5 witness: a concrete `generateWord` run whose `wordChars` are
pairwise distinct. -/
theorem generateWord_wordChars_nodup_witness :
    (WordData.mk ["a", "b"] ["a", "b"] ["x"] ["a", "b", "x"]).wordChars.Nodup :=
  generateWord_wordChars_nodup (fun _ => demoSel)
    (fun _ l s h => demoSel_mem l s h) (fun _ => 0) id id
    ["a", "b", "c"] ["x", "y"] 2
    ⟨["a", "b"], ["a", "b"], ["x"], ["a", "b", "x"]⟩ rfl

/-- C9: for a duplicate-free source pool of `n` characters and word length
`L ≤ n`, `generateWord` succeeds (small pools give a smaller result, not an
error) and its distractor list has at most `min(3, n - L)` elements, is
pairwise distinct, and is disjoint from the answer characters. -/
theorem generateWord_distractors_bounded
    (sel : ℕ → List String → Except SelError String) (rnd : ℕ → ℕ)
    (shuffle : List String → List String) (toAnswer : String → String)
    (sourceChars distractorSource : List String) (wordLength : ℕ)
    (hnd : sourceChars.Nodup) (hlen : wordLength ≤ sourceChars.length)
    (hsel : ∀ n l, l ≠ [] → ∃ s, sel n l = .ok s) :
    ∃ wd, generateWord sel rnd shuffle toAnswer sourceChars
        distractorSource wordLength = .ok wd ∧
      wd.distractors.length ≤ min 3 (sourceChars.length - wordLength) ∧
      wd.distractors.Nodup ∧
      ∀ d ∈ wd.distractors, d ∉ wd.answerChars := by
  obtain ⟨ws, hws⟩ := drawChars_ok sel sourceChars hsel wordLength []
  refine ⟨⟨ws, ws.map toAnswer,
    drawDistractors rnd distractorSource (ws.map toAnswer)
      (min 3 (sourceChars.length - wordLength)) [],
    shuffle (ws.map toAnswer ++
      drawDistractors rnd distractorSource (ws.map toAnswer)
        (min 3 (sourceChars.length - wordLength)) [])⟩, ?_, ?_, ?_, ?_⟩
  · unfold generateWord
    rw [if_neg (not_lt.mpr hlen), hws]
  · simpa using drawDistractors_length rnd distractorSource
      (ws.map toAnswer) (min 3 (sourceChars.length - wordLength)) []
  · exact drawDistractors_nodup rnd distractorSource (ws.map toAnswer) _ []
      List.nodup_nil
  · exact drawDistractors_disjoint rnd distractorSource (ws.map toAnswer) _ []
      (by simp)

/-- C9 witness: a concrete small-pool run — 3 source characters, word
length 2, so at most one distractor, distinct and disjoint from the
answers. -/
theorem generateWord_distractors_bounded_witness :
    ∃ wd, generateWord (fun _ => demoSel) (fun _ => 0) id id
        ["a", "b", "c"] ["x", "y"] 2 = .ok wd ∧
      wd.distractors.length ≤
        min 3 ((["a", "b", "c"] : List String).length - 2) ∧
      wd.distractors.Nodup ∧
      ∀ d ∈ wd.distractors, d ∉ wd.answerChars :=
  generateWord_distractors_bounded (fun _ => demoSel) (fun _ => 0) id id
    ["a", "b", "c"] ["x", "y"] 2 (by decide) (by decide)
    (fun _ l hl => demoSel_ok l hl)

end KanaDojo
